import Mathlib

/-!
Shallow embedding of the ATM trip-planner core (repository `atm`).

The embedding follows `src/final_threaded_with_destination.py` (the richest
variant) together with the variants cited by the claims:
`src/final.py` and `src/final_threaded.py`.

Modelling conventions:
* Python `float` arithmetic is modelled by `Rat`; every quantity produced by
  the planner is a finite sum/quotient of small integers, so `Rat` is exact.
* Python `Optional[int]` readings are `Option Int` (`none` = unavailable).
* The network layer (`MetroAPI._get_waiting_time_single`) is modelled by an
  oracle `fetch : Station → Option Int` giving the reading each station
  resolves to during one planning pass; the 60-second per-(stop,line) cache
  of `MetroAPI` is a partial map `cache : String → Option (Option Int)`
  (`none` = no valid entry).  Thread-pool completion order is irrelevant to
  the value of `get_waiting_times_batch` because each future writes only its
  own index; the embedding performs the writes in submission order.
* Python dicts built by insertion with (in practice distinct) string keys are
  modelled as association lists in insertion order.
-/

namespace Atm

/-- `Station` dataclass of `final_threaded_with_destination.py`. -/
structure Station where
  name : String
  code : String
  walking_time : Int
  index : Nat
  active : Bool
  is_destination : Bool := false
  destination_walking_time : Int := 0
deriving Repr, DecidableEq

instance : Inhabited Station :=
  ⟨{ name := "Unknown", code := "", walking_time := 0, index := 0, active := false }⟩

/-- `Line` dataclass (the unused `travel_time_between_stations` default is omitted). -/
structure Line where
  name : String
  line_code : String
  direction : String
  stations : List Station
deriving Repr, DecidableEq

/-- One candidate-configuration entry (values of the `start_candidates` /
`end_candidates` dicts). -/
structure Candidate where
  direction : String
  target_station_code : String
  walking_time : Int
deriving Repr, DecidableEq

/-- One entry of the `results` list built by `_find_n_trams_increment`,
optionally extended (by `plan_trip` of the destination variant) with the
three destination fields; `none` in those fields models a dict without the
corresponding keys. -/
structure TramInfo where
  arrival : Rat
  feasible : Bool
  walk_time : Int
  wait_at_stop : Option Rat
  raw_wait : Int
  station_idx : Int
  avg_travel_time : Rat
  total_travel_time : Option Rat := none
  final_walking_time : Option Int := none
  total_time : Option Rat := none
deriving Repr, DecidableEq

/-! ## Wait-message parsing (`parse_wait_message`, identical in all variants) -/

/-- Python `str.strip()` on a character list. -/
def stripChars (s : List Char) : List Char :=
  ((s.dropWhile Char.isWhitespace).reverse.dropWhile Char.isWhitespace).reverse

/-- Python `str.lower()` (ASCII fragment, which covers every phrase the
parser compares against). -/
def lowerChars (s : List Char) : List Char :=
  s.map Char.toLower

/-- `wait_message.strip().lower()`. -/
def normalizeMsg (s : List Char) : List Char :=
  lowerChars (stripChars s)

/-- Python `pat in msg` substring test. -/
def containsSub (s pat : List Char) : Bool :=
  (List.range (s.length + 1)).any fun i => pat.isPrefixOf (s.drop i)

/-- Value of a digit run, as `int()` of the matched group. -/
def digitsToNat (ds : List Char) : Nat :=
  ds.foldl (fun a c => a * 10 + (c.toNat - 48)) 0

/-- `re.search(r"(\d+)", msg)`: the leftmost maximal digit run, if any. -/
def firstIntRun : List Char → Option Nat
  | [] => none
  | c :: rest =>
    if c.isDigit then some (digitsToNat (c :: rest.takeWhile Char.isDigit))
    else firstIntRun rest

/-- `parse_wait_message` (src/final_threaded_with_destination.py lines 43-56,
src/final.py lines 25-38).  The dedicated `elif msg == "updating"` branch of
the source returns `None` exactly like the final fall-through; it is kept for
faithfulness. -/
def parse_wait_message (wait_message : String) : Option Int :=
  if wait_message = "" then none
  else
    let msg := normalizeMsg wait_message.data
    if containsSub msg "min".data then (firstIntRun msg).map Int.ofNat
    else if msg = "in arrivo".data then some 1
    else if msg = "updating".data then none
    else none

/-! ## Travel-time estimation -/

/-- `numeric = [x if x is not None else 0 for x in raw_list]`. -/
def toNumeric (raw_list : List (Option Int)) : List Int :=
  raw_list.map fun x => x.getD 0

/-- The `differences` loop shared by `_compute_line_travel_time` and
`_compute_average_travel_time`: walk adjacent pairs, stop at the first strict
increase, record `current - next` otherwise. -/
def collectDifferences : List Int → List Int
  | x :: y :: rest => if y > x then [] else (x - y) :: collectDifferences (y :: rest)
  | _ => []

/-- `TripPlanner._compute_line_travel_time`
(src/final_threaded_with_destination.py lines 280-305), as a function of the
raw readings it fetches; the per-line memo dict only stores this value. -/
def computeLineTravelTime (raw_list : List (Option Int)) : Rat :=
  if raw_list = [] then 2
  else
    let differences := collectDifferences (toNumeric raw_list)
    let avg : Rat :=
      if differences = [] then 2
      else (differences.sum : Rat) / (differences.length : Rat)
    max avg 2

/-- `TripPlanner._compute_average_travel_time` of the non-destination variants
(src/final.py lines 165-186, src/final_threaded.py lines 204-222).  Note: no
clamping to 2 when the average is positive. -/
def computeAverageTravelTime (raw_list : List (Option Int)) : Rat :=
  let differences := collectDifferences (toNumeric raw_list)
  if differences = [] then 2
  else
    let avg : Rat := (differences.sum : Rat) / (differences.length : Rat)
    if avg > 0 then avg else 2

/-! ## Vehicle inference -/

/-- `TripPlanner._compute_arrival`: `raw_wait + (candidate_idx - station_idx) * avg_time`. -/
def computeArrival (candidate_idx : Nat) (station_idx : Int) (raw_wait : Int)
    (avg_time : Rat) : Rat :=
  (raw_wait : Rat) + (((candidate_idx : Int) - station_idx : Int) : Rat) * avg_time

/-- The scanning loop of `_find_n_trams_increment`: starting after position 0
(`prev` is the previous numeric value, `i` the current offset, `remaining`
the number of further vehicles the `len(found) >= n` check still allows),
emit `(numeric[i], cidx - i)` at every strict increase. -/
def findVehicles (cidx : Nat) : List Int → Int → Nat → Nat → List (Int × Int)
  | [], _, _, _ => []
  | _ :: _, _, _, 0 => []
  | x :: rest, prev, i, remaining + 1 =>
    if prev < x then
      (x, (cidx : Int) - (i : Int)) :: findVehicles cidx rest x (i + 1) remaining
    else
      findVehicles cidx rest x (i + 1) (remaining + 1)

/-- `TripPlanner._find_n_trams_increment`
(src/final_threaded_with_destination.py lines 321-365, src/final_threaded.py
lines 229-270), as a function of the fetched raw readings and of the average
travel time it uses (the destination variant reads the latter from its
per-line memo, the others compute it from `raw_list`; see the wrappers). -/
def findNTramsIncrement (raw_list : List (Option Int)) (cidx : Nat)
    (walking_time : Int) (avg_travel_time : Rat) (n : Nat) : List TramInfo :=
  match raw_list with
  | [] => []
  | r0 :: rrest =>
    let x0 : Int := r0.getD 0
    let found : List (Int × Int) :=
      (x0, (cidx : Int)) :: findVehicles cidx (toNumeric rrest) x0 1 (n - 1)
    let results : List TramInfo := found.map fun p =>
      let arrival := computeArrival cidx p.2 p.1 avg_travel_time
      let feasible := decide ((walking_time : Rat) ≤ arrival)
      { arrival := arrival
        feasible := feasible
        walk_time := walking_time
        wait_at_stop := if feasible then some (arrival - (walking_time : Rat)) else none
        raw_wait := p.1
        station_idx := p.2
        avg_travel_time := avg_travel_time }
    results.take n

/-! ## Polling layer (`MetroAPI.get_waiting_times_batch`) -/

/-- `MetroAPI._get_cache_key`. -/
def cacheKey (station_code line_code : String) : String :=
  station_code ++ ":" ++ line_code

/-- First phase of `get_waiting_times_batch`
(src/final_threaded_with_destination.py lines 210-247): fill `results` with
valid cached values (placeholder `none` elsewhere) and collect the
`(index, station)` pairs still to fetch, indices starting at `idx`. -/
def splitCached (cache : String → Option (Option Int)) (line_code : String) :
    List Station → Nat → List (Option Int) × List (Nat × Station)
  | [], _ => ([], [])
  | st :: rest, idx =>
    let r := splitCached cache line_code rest (idx + 1)
    match cache (cacheKey st.code line_code) with
    | some v => (v :: r.1, r.2)
    | none => (none :: r.1, (idx, st) :: r.2)

/-- Second phase: each submitted future writes its own index; completion
order does not matter, so the writes are modelled in submission order. -/
def applyFetches (fetch : Station → Option Int) :
    List (Nat × Station) → List (Option Int) → List (Option Int)
  | [], results => results
  | (idx, st) :: rest, results => applyFetches fetch rest (results.set idx (fetch st))

/-- `MetroAPI.get_waiting_times_batch` (the `final_threaded.py` variant is
the special case `cache = fun _ => none`). -/
def get_waiting_times_batch (cache : String → Option (Option Int))
    (fetch : Station → Option Int) (stations : List Station) (line_code : String) :
    List (Option Int) :=
  let r := splitCached cache line_code stations 0
  applyFetches fetch r.2 r.1

/-- The reading one station resolves to in a batch: the valid cache entry if
present, a fresh fetch otherwise. -/
def resolvedReading (cache : String → Option (Option Int))
    (fetch : Station → Option Int) (line_code : String) (st : Station) : Option Int :=
  (cache (cacheKey st.code line_code)).getD (fetch st)

/-! ## Planner -/

/-- `stations_to_check = [line.stations[i] for i in range(candidate_idx, -1, -1)]`
followed by the batch fetch; `fetch` is the per-station resolved reading of
this pass (constant within a pass thanks to the 60s cache). -/
def gatherRawWaits (fetch : Station → Option Int) (line : Line)
    (candidate_idx : Nat) : List (Option Int) :=
  ((List.range (candidate_idx + 1)).reverse).map fun i =>
    fetch (line.stations.getD i default)

/-- `next((s for s in line.stations if s.active), None)`. -/
def findActiveStation (line : Line) : Option Station :=
  line.stations.find? fun s => s.active

/-- `TripPlanner._find_destination_station`. -/
def findDestinationStation (line : Line) : Option Station :=
  line.stations.find? fun s => s.is_destination

/-- `TripPlanner._compute_total_travel_time`
(src/final_threaded_with_destination.py lines 313-319). -/
def computeTotalTravelTime (avg_time : Rat) (start_station end_station : Station) : Rat :=
  if start_station.index > end_station.index then 0
  else (((end_station.index : Int) - (start_station.index : Int) : Int) : Rat) * avg_time

/-- `_find_n_trams_increment` of the destination variant for one station:
the average travel time comes from `_compute_line_travel_time`, which fetches
the same stations (identical readings within a pass, by the cache). -/
def findNTramsForStation (fetch : Station → Option Int) (line : Line)
    (station : Station) (n : Nat) : List TramInfo :=
  findNTramsIncrement (gatherRawWaits fetch line station.index) station.index
    station.walking_time
    (computeLineTravelTime (gatherRawWaits fetch line station.index)) n

/-- `_find_n_trams_increment` of `final.py` / `final_threaded.py` for one
station: the average is computed from the same raw list. -/
def findNTramsForStationF (fetch : Station → Option Int) (line : Line)
    (station : Station) (n : Nat) : List TramInfo :=
  findNTramsIncrement (gatherRawWaits fetch line station.index) station.index
    station.walking_time
    (computeAverageTravelTime (gatherRawWaits fetch line station.index)) n

/-- The label built by `plan_trip` of the destination variant. -/
def destKey (start_station end_station : Station) (line : Line) : String :=
  start_station.name ++ " -> " ++ end_station.name ++ " (" ++ line.name ++
    ", Direction " ++ line.direction ++ ")"

/-- The label built by `plan_trip` of `final.py`. -/
def planKey (cand : Station) (line : Line) : String :=
  cand.name ++ " (" ++ line.name ++ ", Direction " ++ line.direction ++ ")"

/-- The `out` dict computed by `TripPlanner.plan_trip` of
`final_threaded_with_destination.py` (lines 372-405), before it is stored in
the cache.  A line contributes an entry only when it has an active station,
a non-empty tram list, and a destination station. -/
def planTripDest (fetch : Station → Option Int) (lines : List Line) :
    List (String × List TramInfo) :=
  lines.flatMap fun line =>
    match findActiveStation line with
    | none => []
    | some start_station =>
      let tram_list := findNTramsForStation fetch line start_station 3
      if tram_list = [] then []
      else
        match findDestinationStation line with
        | none => []
        | some end_station =>
          let avg := computeLineTravelTime (gatherRawWaits fetch line start_station.index)
          let total_travel := computeTotalTravelTime avg start_station end_station
          [(destKey start_station end_station line,
            tram_list.map fun t =>
              { t with
                total_travel_time := some total_travel
                final_walking_time := some end_station.destination_walking_time
                total_time := some (t.arrival + total_travel +
                  (end_station.destination_walking_time : Rat)) })]

/-- The `out` dict computed by `TripPlanner.plan_trip` of `final.py`
(lines 238-251). -/
def planTripF (fetch : Station → Option Int) (lines : List Line) :
    List (String × List TramInfo) :=
  lines.flatMap fun line =>
    match findActiveStation line with
    | none => []
    | some cand =>
      let tram_list := findNTramsForStationF fetch line cand 3
      if tram_list = [] then []
      else [(planKey cand line, tram_list)]

/-- Mutable planner state: `self.lines` and `self._cached_plan`. -/
structure PlannerState where
  lines : List Line
  cachedPlan : Option (List (String × List TramInfo))
deriving Repr, DecidableEq

/-- `TripPlanner.plan_trip` of the destination variant with its caching
behaviour: return the cached plan when present, otherwise compute and store. -/
def planTripStateful (fetch : Station → Option Int) (s : PlannerState) :
    List (String × List TramInfo) × PlannerState :=
  match s.cachedPlan with
  | some p => (p, s)
  | none =>
    let p := planTripDest fetch s.lines
    (p, { s with cachedPlan := some p })

/-- `feasible_options.sort(key=...)[0]` for a stable sort: the first element
attaining the minimal key. -/
def firstMinBy (key : String × TramInfo → Rat) :
    List (String × TramInfo) → Option (String × TramInfo)
  | [] => none
  | x :: rest => some (rest.foldl (fun b y => if key y < key b then y else b) x)

/-- `TripPlanner.best_tram` of `final.py` (lines 253-264): flatten the plan,
keep feasible entries, stable-sort by `arrival`, take the first. -/
def bestTram (plan : List (String × List TramInfo)) : Option (String × TramInfo) :=
  let feasible_options := plan.flatMap fun kv =>
    (kv.2.filter fun t => t.feasible).map fun t => (kv.1, t)
  firstMinBy (fun x => x.2.arrival) feasible_options

/-! ## Candidate marking (`update_lines_with_candidates`) -/

/-- The inner `for st in line.stations: if st.code == tcode: ...; break` loop
for a start candidate: mark the first station with the target code. -/
def markStart (tcode : String) (wtime : Int) : List Station → List Station
  | [] => []
  | st :: rest =>
    if st.code = tcode then { st with active := true, walking_time := wtime } :: rest
    else st :: markStart tcode wtime rest

/-- Same loop for an end candidate: mark the first station with the target
code as destination. -/
def markEnd (tcode : String) (wtime : Int) : List Station → List Station
  | [] => []
  | st :: rest =>
    if st.code = tcode then
      { st with is_destination := true, destination_walking_time := wtime } :: rest
    else st :: markEnd tcode wtime rest

/-- The start-candidate pass of `update_lines_with_candidates` on one line
(src/final_threaded_with_destination.py lines 107-117). -/
def updateLineStart (start_c : Option Candidate) (line : Line) : Line :=
  match start_c with
  | some c =>
    if c.direction = line.direction then
      { line with stations := markStart c.target_station_code c.walking_time line.stations }
    else line
  | none => line

/-- The end-candidate pass (lines 119-129); the direction compared against is
the line's, which the start pass never changes. -/
def updateLineEnd (end_c : Option Candidate) (line1 : Line) : Line :=
  match end_c with
  | some c =>
    if c.direction = line1.direction then
      { line1 with stations := markEnd c.target_station_code c.walking_time line1.stations }
    else line1
  | none => line1

/-- Body of `update_lines_with_candidates`
(src/final_threaded_with_destination.py lines 99-129) for one line: apply the
start candidate, then the end candidate, each only when its direction matches. -/
def updateLine (start_c end_c : Option Candidate) (line : Line) : Line :=
  updateLineEnd end_c (updateLineStart start_c line)

/-- `update_lines_with_candidates`; the Python dicts are modelled as the
lookup functions `start_candidates`, `end_candidates`. -/
def update_lines_with_candidates (lines : List Line)
    (start_candidates end_candidates : String → Option Candidate) : List Line :=
  lines.map fun line =>
    updateLine (start_candidates line.line_code) (end_candidates line.line_code) line

/-! ## Segmentation specification helper -/

/-- Offsets `i ≥ 1` whose numeric value strictly exceeds the value at `i - 1`
(`prev` is the value at offset `i - 1`): the spec's new-vehicle positions
before the count cap is applied. -/
def risesFrom (prev : Int) (i : Nat) : List Int → List Nat
  | [] => []
  | x :: rest =>
    if prev < x then i :: risesFrom x (i + 1) rest
    else risesFrom x (i + 1) rest

/-- The frame/monotonicity relation of one `update_lines_with_candidates`
pass on one line's station list, relative to the start and end candidate
entries that may apply to the line: positions, names, codes and indices are
preserved, markings are only ever set (never cleared), and a station whose
code matches neither candidate's target stop code is left entirely
unchanged. -/
def MarksPreserve (sc ec : Option Candidate) (l l' : List Station) : Prop :=
  l'.length = l.length
  ∧ ∀ (j : Nat) (st : Station), l[j]? = some st →
      ∃ st', l'[j]? = some st'
        ∧ st'.name = st.name ∧ st'.code = st.code ∧ st'.index = st.index
        ∧ (st.active = true → st'.active = true)
        ∧ (st.is_destination = true → st'.is_destination = true)
        ∧ ((∀ c, sc = some c → st.code ≠ c.target_station_code) →
           (∀ c, ec = some c → st.code ≠ c.target_station_code) → st' = st)

/-! ## Concrete instances used by scenario theorems, witnesses and
counterexamples -/

/-- Vehicle #1 of the spec's `[8,5,3,9,2]` scenario (boarding index 4,
walking time 4, estimate 5/2). -/
def scenarioV1 : TramInfo :=
  { arrival := 8, feasible := true, walk_time := 4, wait_at_stop := some 4,
    raw_wait := 8, station_idx := 4, avg_travel_time := 5 / 2 }

/-- Vehicle #2 of the scenario: source offset 3, arrival `9 + 3 × 5/2`. -/
def scenarioV2 : TramInfo :=
  { arrival := 33 / 2, feasible := true, walk_time := 4, wait_at_stop := some (25 / 2),
    raw_wait := 9, station_idx := 1, avg_travel_time := 5 / 2 }

/-- A single-vehicle tram entry used as a feasibility witness. -/
def tram8 : TramInfo :=
  { arrival := 8, feasible := true, walk_time := 4, wait_at_stop := some 4,
    raw_wait := 8, station_idx := 0, avg_travel_time := 2 }

/-- A line whose only station is an active boarding stop, with no destination
configured. -/
def lineNoDest : Line :=
  { name := "15", line_code := "15", direction := "0",
    stations :=
      [{ name := "A", code := "a", walking_time := 4, index := 0, active := true }] }

/-- A line with an active boarding stop (index 0) and a destination stop
(index 1). -/
def lineBoth : Line :=
  { name := "15", line_code := "15", direction := "0",
    stations :=
      [{ name := "A", code := "a", walking_time := 4, index := 0, active := true },
       { name := "B", code := "b", walking_time := 0, index := 1, active := false,
         is_destination := true, destination_walking_time := 3 }] }

/-- A line with no boarding stop marked. -/
def lineInactive : Line :=
  { name := "3", line_code := "3", direction := "0",
    stations :=
      [{ name := "C", code := "c", walking_time := 0, index := 0, active := false }] }

/-- A destination stop at index 0, upstream of the boarding stop. -/
def stInvDest : Station :=
  { name := "D", code := "d", walking_time := 0, index := 0, active := false,
    is_destination := true, destination_walking_time := 5 }

/-- A boarding stop at index 1, downstream of the destination stop. -/
def stInvStart : Station :=
  { name := "E", code := "e", walking_time := 2, index := 1, active := true }

/-- A line whose destination stop (index 0) precedes its boarding stop
(index 1): the inverted configuration of C9. -/
def lineInverted : Line :=
  { name := "59", line_code := "59", direction := "0",
    stations := [stInvDest, stInvStart] }

/-- The single vehicle `final.py` infers on `lineNoDest` when every reading
is 5: arrival 5, estimate fallback 2, wait 1, destination fields absent. -/
def wTramF : TramInfo :=
  { arrival := 5, feasible := true, walk_time := 4, wait_at_stop := some 1,
    raw_wait := 5, station_idx := 0, avg_travel_time := 2 }

/-- Station "P" (index 0), initially unmarked. -/
def stP : Station :=
  { name := "P", code := "p", walking_time := 0, index := 0, active := false }

/-- Station "Q" (index 1), initially unmarked. -/
def stQ : Station :=
  { name := "Q", code := "q", walking_time := 0, index := 1, active := false }

/-- A two-stop line used to exercise candidate marking. -/
def lineW : Line :=
  { name := "W", line_code := "W", direction := "0", stations := [stP, stQ] }

/-- A start-candidate mapping targeting stop "p" of line "W". -/
def scsW : String → Option Candidate := fun lc =>
  if lc = "W" then some { direction := "0", target_station_code := "p", walking_time := 3 }
  else none

/-- An empty end-candidate mapping. -/
def ecsW : String → Option Candidate := fun _ => none

/-! ## Helper lemmas -/

lemma collectDifferences_nonneg :
    ∀ l : List Int, ∀ d ∈ collectDifferences l, 0 ≤ d := by
  intro l
  induction l with
  | nil => intro d hd; simp [collectDifferences] at hd
  | cons x rest ih =>
    match rest, ih with
    | [], _ => intro d hd; simp [collectDifferences] at hd
    | y :: rest, ih =>
      intro d hd
      rw [collectDifferences] at hd
      by_cases h : y > x
      · simp [h] at hd
      · simp [h] at hd
        rcases hd with rfl | hd
        · omega
        · exact ih d hd

lemma computeLineTravelTime_ge_two (raw_list : List (Option Int)) :
    2 ≤ computeLineTravelTime raw_list := by
  rw [computeLineTravelTime]
  split
  · exact le_refl 2
  · exact le_max_right _ _

lemma computeLineTravelTime_of_no_diffs (raw_list : List (Option Int))
    (h : collectDifferences (toNumeric raw_list) = []) :
    computeLineTravelTime raw_list = 2 := by
  rw [computeLineTravelTime]
  split
  · rfl
  · simp [h]

lemma computeAverageTravelTime_of_no_diffs (raw_list : List (Option Int))
    (h : collectDifferences (toNumeric raw_list) = []) :
    computeAverageTravelTime raw_list = 2 := by
  rw [computeAverageTravelTime]
  simp [h]

lemma computeAverageTravelTime_pos (raw_list : List (Option Int)) :
    0 < computeAverageTravelTime raw_list := by
  rw [computeAverageTravelTime]
  split
  · norm_num
  · simp only []
    split
    · assumption
    · norm_num

lemma computeLineTravelTime_of_avg_nonpos (raw_list : List (Option Int))
    (h : ((collectDifferences (toNumeric raw_list)).sum : Rat) /
      ((collectDifferences (toNumeric raw_list)).length : Rat) ≤ 0) :
    computeLineTravelTime raw_list = 2 := by
  rw [computeLineTravelTime]
  split
  · rfl
  · simp only []
    split
    · simp
    · rw [max_eq_right (le_trans h (by norm_num))]

lemma computeAverageTravelTime_of_avg_nonpos (raw_list : List (Option Int))
    (h : ((collectDifferences (toNumeric raw_list)).sum : Rat) /
      ((collectDifferences (toNumeric raw_list)).length : Rat) ≤ 0) :
    computeAverageTravelTime raw_list = 2 := by
  rw [computeAverageTravelTime]
  split
  · rfl
  · simp only []
    rw [if_neg (by exact not_lt.mpr h)]

lemma findVehicles_map_snd (cidx : Nat) :
    ∀ (l : List Int) (prev : Int) (i rem : Nat),
      (findVehicles cidx l prev i rem).map Prod.snd
        = ((risesFrom prev i l).take rem).map (fun j : Nat => (cidx : Int) - (j : Int)) := by
  intro l
  induction l with
  | nil => intro prev i rem; simp [findVehicles, risesFrom]
  | cons x rest ih =>
    intro prev i rem
    cases rem with
    | zero => simp [findVehicles]
    | succ m =>
      rw [findVehicles, risesFrom]
      by_cases h : prev < x
      · simp only [if_pos h, List.take_succ_cons, List.map_cons, ih]
      · simp only [if_neg h, ih]

lemma risesFrom_le :
    ∀ (l : List Int) (prev : Int) (i : Nat), ∀ j ∈ risesFrom prev i l, i ≤ j := by
  intro l
  induction l with
  | nil => intro prev i j hj; simp [risesFrom] at hj
  | cons x rest ih =>
    intro prev i j hj
    rw [risesFrom] at hj
    by_cases h : prev < x
    · rw [if_pos h] at hj
      rcases List.mem_cons.mp hj with rfl | hj
      · exact le_refl j
      · exact le_trans (Nat.le_succ i) (ih x (i + 1) j hj)
    · rw [if_neg h] at hj
      exact le_trans (Nat.le_succ i) (ih x (i + 1) j hj)

lemma risesFrom_chain :
    ∀ (l : List Int) (prev : Int) (i : Nat),
      List.Chain' (· < ·) (risesFrom prev i l) := by
  intro l
  induction l with
  | nil => intro prev i; simp [risesFrom]
  | cons x rest ih =>
    intro prev i
    rw [risesFrom]
    by_cases h : prev < x
    · rw [if_pos h]
      refine List.chain'_cons'.mpr ⟨?_, ih x (i + 1)⟩
      intro y hy
      have := risesFrom_le rest x (i + 1) y (List.mem_of_mem_head? hy)
      omega
    · rw [if_neg h]; exact ih x (i + 1)

lemma findNTramsIncrement_found (r0 : Option Int) (rrest : List (Option Int))
    (cidx : Nat) (walk : Int) (avg : Rat) (n : Nat) (hn : 1 ≤ n) :
    (findNTramsIncrement (r0 :: rrest) cidx walk avg n).map TramInfo.station_idx
      = ((0 :: (risesFrom (r0.getD 0) 1 (toNumeric rrest)).take (n - 1)).map
          (fun j : Nat => (cidx : Int) - (j : Int))) := by
  rw [findNTramsIncrement]
  simp only []
  have hlen : ((r0.getD 0, (cidx : Int)) ::
      findVehicles cidx (toNumeric rrest) (r0.getD 0) 1 (n - 1)).length ≤ n := by
    have h1 : (findVehicles cidx (toNumeric rrest) (r0.getD 0) 1 (n - 1)).length ≤ n - 1 := by
      have := congrArg List.length
        (findVehicles_map_snd cidx (toNumeric rrest) (r0.getD 0) 1 (n - 1))
      simp only [List.length_map] at this
      rw [this]
      exact le_trans (le_of_eq (List.length_take _ _)) (min_le_left _ _)
    simp only [List.length_cons]
    omega
  rw [← List.map_take, List.take_of_length_le hlen, List.map_map]
  show ((r0.getD 0, (cidx : Int)) ::
      findVehicles cidx (toNumeric rrest) (r0.getD 0) 1 (n - 1)).map Prod.snd = _
  rw [List.map_cons, List.map_cons, findVehicles_map_snd]
  simp

/-! ## C4: segmentation -/

/-- C4 (counterexample): for the strictly increasing sequence
`[0, 1, 2, 3]` with target count 3 (boarding index 3), the value at offset 3
is strictly greater than the value at offset 2, yet — the cap of 3 vehicles
having been reached at offsets 0, 1, 2 — no inferred vehicle has source stop
index `3 - 3 = 0`; so "a later position starts a new vehicle if and only if
its value is strictly greater than the value at the previous position" is
false as stated. -/
theorem segmentation_cap_cex :
    (toNumeric [some 0, some 1, some 2, some 3]).getD 3 0
        > (toNumeric [some 0, some 1, some 2, some 3]).getD 2 0
    ∧ (findNTramsIncrement [some 0, some 1, some 2, some 3] 3 0 2 3).map
        TramInfo.station_idx = [3, 2, 1]
    ∧ ((findNTramsIncrement [some 0, some 1, some 2, some 3] 3 0 2 3).map
        TramInfo.station_idx).contains 0 = false := by
  have hmap : (findNTramsIncrement [some 0, some 1, some 2, some 3] 3 0 2 3).map
      TramInfo.station_idx = [3, 2, 1] := by
    rw [findNTramsIncrement_found _ _ _ _ _ _ (by norm_num)]
    decide
  exact ⟨by decide, hmap, by rw [hmap]; decide⟩

/-- C4 (amended): for any non-empty countdown sequence given to segmentation
with target count N ≥ 1, the result contains at least 1 and at most N
inferred vehicles; the first vehicle is taken at position 0, and the
remaining vehicles are exactly the first N − 1 positions (in scan order)
whose value — unavailable readings coerced to 0 — strictly exceeds the value
at the previous position; consequently the vehicles' source stop indices are
strictly decreasing. -/
theorem segmentation_amended (r0 : Option Int) (rrest : List (Option Int))
    (cidx : Nat) (walk : Int) (avg : Rat) (n : Nat) (hn : 1 ≤ n) :
    (findNTramsIncrement (r0 :: rrest) cidx walk avg n).map TramInfo.station_idx
      = ((0 :: (risesFrom (r0.getD 0) 1 (toNumeric rrest)).take (n - 1)).map
          (fun j : Nat => (cidx : Int) - (j : Int)))
    ∧ 1 ≤ (findNTramsIncrement (r0 :: rrest) cidx walk avg n).length
    ∧ (findNTramsIncrement (r0 :: rrest) cidx walk avg n).length ≤ n
    ∧ List.Chain' (fun a b : Int => b < a)
        ((findNTramsIncrement (r0 :: rrest) cidx walk avg n).map TramInfo.station_idx) := by
  have hmap := findNTramsIncrement_found r0 rrest cidx walk avg n hn
  have hlen := congrArg List.length hmap
  simp only [List.length_map, List.length_cons] at hlen
  have h2 : ((risesFrom (r0.getD 0) 1 (toNumeric rrest)).take (n - 1)).length ≤ n - 1 :=
    le_trans (le_of_eq (List.length_take _ _)) (min_le_left _ _)
  refine ⟨hmap, ?_, ?_, ?_⟩
  · omega
  · omega
  · rw [hmap]
    rw [List.chain'_map]
    refine List.chain'_cons'.mpr ⟨?_, ?_⟩
    · intro y hy
      have h1 : 1 ≤ y := risesFrom_le _ _ _ y
        (List.mem_of_mem_take (List.mem_of_mem_head? hy))
      omega
    · refine List.Chain'.imp ?_ ((risesFrom_chain _ _ _).take (n - 1))
      intro a b hab
      omega

/-- C4 (witness): the amended segmentation theorem at the concrete sequence
`[8, 5, 3, 9, 2]` with boarding index 4 and target count 3: vehicles at
offsets 0 and 3, source stop indices `[4, 1]`. -/
theorem segmentation_amended_witness :
    1 ≤ 3
    ∧ ((findNTramsIncrement [some 8, some 5, some 3, some 9, some 2] 4 4 (5 / 2) 3).map
          TramInfo.station_idx
        = ((0 :: (risesFrom ((some (8 : Int)).getD 0) 1
            (toNumeric [some 5, some 3, some 9, some 2])).take (3 - 1)).map
            (fun j : Nat => ((4 : Nat) : Int) - (j : Int)))
      ∧ 1 ≤ (findNTramsIncrement [some 8, some 5, some 3, some 9, some 2] 4 4 (5 / 2) 3).length
      ∧ (findNTramsIncrement [some 8, some 5, some 3, some 9, some 2] 4 4 (5 / 2) 3).length ≤ 3
      ∧ List.Chain' (fun a b : Int => b < a)
          ((findNTramsIncrement [some 8, some 5, some 3, some 9, some 2] 4 4 (5 / 2) 3).map
            TramInfo.station_idx)) :=
  ⟨by decide,
   segmentation_amended (some 8) [some 5, some 3, some 9, some 2] 4 4 (5 / 2) 3 (by decide)⟩

/-! ## C3: travel-time floor -/

/-- C3 (counterexample): the reading sequence `[5, 4]` yields a single
difference `1`, whose positive average `1` is returned unchanged by
`_compute_average_travel_time` of `final.py` — a per-line travel-time
estimate strictly below the configured floor of 2 minutes per stop, so the
claim "the estimate is greater than or equal to the configured floor of 2"
is false on this cited function. -/
theorem travel_floor_cex :
    computeAverageTravelTime [some 5, some 4] < 2 := by
  rw [computeAverageTravelTime]
  norm_num [toNumeric, collectDifferences]

/-- C3 (amended): in the destination variant, `_compute_line_travel_time` is
always ≥ the floor 2, and equals exactly 2 when no non-increasing differences
exist or their average is non-positive.  The `final.py` variant
`_compute_average_travel_time` satisfies the same fallback rule and is always
positive (never negative or undefined), but returns the raw average whenever
it is positive, so it may fall below the floor. -/
theorem travel_floor_amended (raw_list : List (Option Int)) :
    2 ≤ computeLineTravelTime raw_list
    ∧ 0 < computeAverageTravelTime raw_list
    ∧ (collectDifferences (toNumeric raw_list) = [] →
        computeLineTravelTime raw_list = 2 ∧ computeAverageTravelTime raw_list = 2)
    ∧ (((collectDifferences (toNumeric raw_list)).sum : Rat) /
        ((collectDifferences (toNumeric raw_list)).length : Rat) ≤ 0 →
        computeLineTravelTime raw_list = 2 ∧ computeAverageTravelTime raw_list = 2) :=
  ⟨computeLineTravelTime_ge_two raw_list,
   computeAverageTravelTime_pos raw_list,
   fun h => ⟨computeLineTravelTime_of_no_diffs raw_list h,
     computeAverageTravelTime_of_no_diffs raw_list h⟩,
   fun h => ⟨computeLineTravelTime_of_avg_nonpos raw_list h,
     computeAverageTravelTime_of_avg_nonpos raw_list h⟩⟩

/-- C3 (witness): the amended theorem applied to the constant sequence
`[7, 7]`, whose only difference is `0`, so both estimates fall back to 2. -/
theorem travel_floor_amended_witness :
    (((collectDifferences (toNumeric [some 7, some 7])).sum : Rat) /
        ((collectDifferences (toNumeric [some 7, some 7])).length : Rat) ≤ 0)
    ∧ (computeLineTravelTime [some 7, some 7] = 2
        ∧ computeAverageTravelTime [some 7, some 7] = 2) :=
  ⟨by norm_num [toNumeric, collectDifferences],
   (travel_floor_amended [some 7, some 7]).2.2.2
     (by norm_num [toNumeric, collectDifferences])⟩

/-! ## C7: wait-message parsing -/

/-- C7: behaviour of `parse_wait_message` on every message string, phrased on
the lower-cased, trimmed message: an embedded "min" substring yields the
leftmost embedded integer when one exists (and unavailable otherwise), the
exact phrase "in arrivo" yields 1, the exact phrase "updating" yields
unavailable, the empty message yields unavailable, and anything matching no
rule yields unavailable. -/
theorem parse_wait_rules (s : String) :
    (s = "" → parse_wait_message s = none)
    ∧ (∀ k, containsSub (normalizeMsg s.data) "min".data = true →
        firstIntRun (normalizeMsg s.data) = some k →
        parse_wait_message s = some (k : Int))
    ∧ (containsSub (normalizeMsg s.data) "min".data = true →
        firstIntRun (normalizeMsg s.data) = none → parse_wait_message s = none)
    ∧ (normalizeMsg s.data = "in arrivo".data → parse_wait_message s = some 1)
    ∧ (normalizeMsg s.data = "updating".data → parse_wait_message s = none)
    ∧ (containsSub (normalizeMsg s.data) "min".data = false →
        normalizeMsg s.data ≠ "in arrivo".data → parse_wait_message s = none) := by
  by_cases hs : s = ""
  · subst hs
    refine ⟨fun _ => rfl, ?_, ?_, ?_, ?_, ?_⟩
    · intro k hc _; exact absurd hc (by decide)
    · intro hc _; exact absurd hc (by decide)
    · intro h; exact absurd h (by decide)
    · intro h; exact absurd h (by decide)
    · intro _ _; rfl
  · rw [parse_wait_message, if_neg hs]
    refine ⟨fun h => absurd h hs, ?_, ?_, ?_, ?_, ?_⟩
    · intro k hc hf
      simp only [hc, if_true, hf]
      rfl
    · intro hc hf
      simp only [hc, if_true, hf]
      rfl
    · intro h
      rw [h]; decide
    · intro h
      rw [h]; decide
    · intro hc hne
      simp only [hc, Bool.false_eq_true, if_false, if_neg hne]
      split <;> rfl

/-- C7 (witness): the parsing rules applied to concrete provider messages. -/
theorem parse_wait_rules_witness :
    parse_wait_message " 5 MIN " = some 5
    ∧ parse_wait_message "In Arrivo " = some 1
    ∧ parse_wait_message "updating" = none
    ∧ parse_wait_message "ricalcolo" = none :=
  ⟨(parse_wait_rules " 5 MIN ").2.1 5 (by decide) (by decide),
   (parse_wait_rules "In Arrivo ").2.2.2.1 (by decide),
   (parse_wait_rules "updating").2.2.2.2.1 (by decide),
   (parse_wait_rules "ricalcolo").2.2.2.2.2 (by decide) (by decide)⟩

/-! ## C6: feasibility rule -/

/-- C6: for every inferred vehicle produced by the evaluator, `feasible` is
true if and only if the arrival at the boarding stop is at least the boarding
walk time, and `wait_at_stop` equals `arrival − walking_time` exactly when
feasible and is `none` otherwise. -/
theorem feasibility_rule (raw_list : List (Option Int)) (cidx : Nat) (walk : Int)
    (avg : Rat) (n : Nat) :
    ∀ t ∈ findNTramsIncrement raw_list cidx walk avg n,
      (t.feasible = true ↔ (walk : Rat) ≤ t.arrival)
      ∧ t.wait_at_stop
          = (if (walk : Rat) ≤ t.arrival then some (t.arrival - (walk : Rat)) else none) := by
  intro t ht
  match raw_list with
  | [] => simp [findNTramsIncrement] at ht
  | r0 :: rrest =>
    simp only [findNTramsIncrement] at ht
    obtain ⟨p, _, rfl⟩ := List.mem_map.mp (List.mem_of_mem_take ht)
    refine ⟨by simp, ?_⟩
    by_cases hc : (walk : Rat) ≤ computeArrival cidx p.2 p.1 avg
    · simp [hc]
    · simp [hc]

/-- C6 (witness): the feasibility rule applied to the single vehicle inferred
from the reading sequence `[8]` with walking time 4 and estimate 2. -/
theorem feasibility_rule_witness :
    (tram8.feasible = true ↔ ((4 : Int) : Rat) ≤ tram8.arrival)
    ∧ tram8.wait_at_stop
        = (if ((4 : Int) : Rat) ≤ tram8.arrival
            then some (tram8.arrival - ((4 : Int) : Rat)) else none) :=
  feasibility_rule [some 8] 0 4 2 3 tram8 (by
    simp only [findNTramsIncrement, findVehicles, toNumeric, computeArrival, tram8]
    norm_num)

/-! ## C5: the [8,5,3,9,2] scenario -/

/-- C5: for the reading sequence `[8,5,3,9,2]` (boarding stop first, boarding
index 4) the travel-time estimate is 5/2 (differences 3 and 2 of the first
segment, in both estimator variants); segmentation with walking time 4 infers
vehicle #1 (raw 8, arrival 8, feasible, wait 4) and vehicle #2 at source
offset 3 (raw 9, arrival 9 + 3 × 5/2 = 33/2, feasible, wait 25/2); and
`best_tram` selects vehicle #1. -/
theorem scenario_readings :
    computeLineTravelTime [some 8, some 5, some 3, some 9, some 2] = 5 / 2
    ∧ computeAverageTravelTime [some 8, some 5, some 3, some 9, some 2] = 5 / 2
    ∧ findNTramsIncrement [some 8, some 5, some 3, some 9, some 2] 4 4 (5 / 2) 3
        = [scenarioV1, scenarioV2]
    ∧ bestTram [("label", [scenarioV1, scenarioV2])] = some ("label", scenarioV1) := by
  refine ⟨?_, ?_, ?_, ?_⟩
  · rw [computeLineTravelTime]
    norm_num [toNumeric, collectDifferences]
    rw [if_neg (by decide), if_neg (by decide)]
    exact sup_eq_left.mpr (by norm_num)
  · rw [computeAverageTravelTime]
    norm_num [toNumeric, collectDifferences]
    decide
  · simp only [findNTramsIncrement, findVehicles, toNumeric, computeArrival,
      scenarioV1, scenarioV2]
    norm_num [TramInfo.mk.injEq]
  · simp only [bestTram, firstMinBy, scenarioV1, scenarioV2, List.flatMap_cons,
      List.flatMap_nil, List.filter, List.map, List.append_nil, List.foldl]
    norm_num

/-! ## C8: batch fetch order and independence -/

lemma splitCached_shift (cache : String → Option (Option Int)) (line_code : String) :
    ∀ (stations : List Station) (idx : Nat),
      splitCached cache line_code stations (idx + 1)
        = ((splitCached cache line_code stations idx).1,
           (splitCached cache line_code stations idx).2.map fun p => (p.1 + 1, p.2)) := by
  intro stations
  induction stations with
  | nil => intro idx; simp [splitCached]
  | cons st rest ih =>
    intro idx
    rw [splitCached, splitCached, ih (idx + 1)]
    cases cache (cacheKey st.code line_code) <;> simp

lemma applyFetches_cons (fetch : Station → Option Int) :
    ∀ (tf : List (Nat × Station)) (v : Option Int) (res : List (Option Int)),
      (∀ p ∈ tf, 1 ≤ p.1) →
      applyFetches fetch tf (v :: res)
        = v :: applyFetches fetch (tf.map fun p => (p.1 - 1, p.2)) res := by
  intro tf
  induction tf with
  | nil => intro v res _; simp [applyFetches]
  | cons q rest ih =>
    intro v res hge
    obtain ⟨idx, st⟩ := q
    have h1 : 1 ≤ idx := hge (idx, st) (List.mem_cons_self _ _)
    obtain ⟨m, rfl⟩ : ∃ m, idx = m + 1 := ⟨idx - 1, by omega⟩
    show applyFetches fetch rest ((v :: res).set (m + 1) (fetch st))
        = v :: applyFetches fetch ((m + 1 - 1, st) :: rest.map fun p => (p.1 - 1, p.2)) res
    rw [List.set_cons_succ, Nat.add_sub_cancel,
      ih v (res.set m (fetch st)) fun p hp => hge p (List.mem_cons_of_mem _ hp)]
    rfl

lemma batch_eq_map (cache : String → Option (Option Int))
    (fetch : Station → Option Int) (line_code : String) :
    ∀ stations : List Station,
      get_waiting_times_batch cache fetch stations line_code
        = stations.map (resolvedReading cache fetch line_code) := by
  intro stations
  induction stations with
  | nil => simp [get_waiting_times_batch, splitCached, applyFetches]
  | cons st rest ih =>
    rw [get_waiting_times_batch]
    simp only [splitCached, splitCached_shift]
    have hge : ∀ p ∈ (splitCached cache line_code rest 0).2.map
        (fun p : Nat × Station => (p.1 + 1, p.2)), 1 ≤ p.1 := by
      intro p hp
      obtain ⟨q, _, rfl⟩ := List.mem_map.mp hp
      omega
    have hunshift : ∀ L : List (Nat × Station),
        (L.map (fun p => (p.1 + 1, p.2))).map (fun p => (p.1 - 1, p.2)) = L := by
      intro L
      induction L with
      | nil => rfl
      | cons a t iht => simp [iht]
    cases hc : cache (cacheKey st.code line_code) with
    | some v =>
      simp only []
      rw [applyFetches_cons fetch _ _ _ hge, hunshift]
      rw [show applyFetches fetch (splitCached cache line_code rest 0).2
            (splitCached cache line_code rest 0).1
          = get_waiting_times_batch cache fetch rest line_code from rfl, ih]
      simp [resolvedReading, hc]
    | none =>
      simp only []
      rw [applyFetches, List.set_cons_zero]
      rw [applyFetches_cons fetch _ _ _ hge, hunshift]
      rw [show applyFetches fetch (splitCached cache line_code rest 0).2
            (splitCached cache line_code rest 0).1
          = get_waiting_times_batch cache fetch rest line_code from rfl, ih]
      simp [resolvedReading, hc]

/-- C8: the batch fetch returns a sequence of the same length as its input,
position `i` holds exactly the reading resolved for stop `i` (cache hit value
if valid, fresh fetch otherwise, `none` on failure), and the value at a
position depends only on its own stop's fetch — changing other stops' fetch
outcomes (e.g. failures) does not change it. -/
theorem batch_order (cache : String → Option (Option Int))
    (fetch : Station → Option Int) (stations : List Station) (line_code : String) :
    (get_waiting_times_batch cache fetch stations line_code).length = stations.length
    ∧ (∀ (i : Nat) (st : Station), stations[i]? = some st →
        (get_waiting_times_batch cache fetch stations line_code)[i]?
          = some (resolvedReading cache fetch line_code st))
    ∧ (∀ (fetch2 : Station → Option Int) (i : Nat) (st : Station), stations[i]? = some st →
        fetch2 st = fetch st →
        (get_waiting_times_batch cache fetch2 stations line_code)[i]?
          = (get_waiting_times_batch cache fetch stations line_code)[i]?) := by
  refine ⟨?_, ?_, ?_⟩
  · rw [batch_eq_map]; exact List.length_map _ _
  · intro i st hst
    rw [batch_eq_map, List.getElem?_map, hst]
    rfl
  · intro fetch2 i st hst hagree
    have h2 := batch_eq_map cache fetch2 line_code stations
    have h1 := batch_eq_map cache fetch line_code stations
    rw [h1, h2, List.getElem?_map, List.getElem?_map, hst]
    simp [resolvedReading, hagree]

/-- C8 (witness): a two-stop batch where the second stop's fetch fails: the
output still has the failing stop's reading (unavailable) at position 1, and
position 0 is unaffected by replacing the failing fetch. -/
theorem batch_order_witness :
    ((([{ name := "A", code := "wa", walking_time := 0, index := 0, active := false },
        { name := "B", code := "wb", walking_time := 0, index := 1, active := false }] :
          List Station)[1]?)
      = some { name := "B", code := "wb", walking_time := 0, index := 1, active := false })
    ∧ (get_waiting_times_batch (fun _ => none)
        (fun st => if st.code = "wb" then none else some 7)
        [{ name := "A", code := "wa", walking_time := 0, index := 0, active := false },
         { name := "B", code := "wb", walking_time := 0, index := 1, active := false }]
        "L")[1]?
      = some (resolvedReading (fun _ => none)
          (fun st => if st.code = "wb" then none else some 7) "L"
          { name := "B", code := "wb", walking_time := 0, index := 1, active := false }) :=
  ⟨by decide,
   (batch_order (fun _ => none) (fun st => if st.code = "wb" then none else some 7)
      [{ name := "A", code := "wa", walking_time := 0, index := 0, active := false },
       { name := "B", code := "wb", walking_time := 0, index := 1, active := false }]
      "L").2.1 1
      { name := "B", code := "wb", walking_time := 0, index := 1, active := false }
      (by decide)⟩

/-! ## Planner helper lemmas -/

lemma gatherRawWaits_ne_nil (fetch : Station → Option Int) (line : Line) (cidx : Nat) :
    gatherRawWaits fetch line cidx ≠ [] := by
  intro h
  have := congrArg List.length h
  simp [gatherRawWaits] at this

lemma findNTramsIncrement_ne_nil (raw_list : List (Option Int)) (cidx : Nat)
    (walk : Int) (avg : Rat) (n : Nat) (hraw : raw_list ≠ []) (hn : 1 ≤ n) :
    findNTramsIncrement raw_list cidx walk avg n ≠ [] := by
  match raw_list, hraw with
  | r0 :: rrest, _ =>
    rw [findNTramsIncrement]
    obtain ⟨m, rfl⟩ : ∃ m, n = m + 1 := ⟨n - 1, by omega⟩
    simp [List.take_succ_cons]

lemma findNTramsForStation_ne_nil (fetch : Station → Option Int) (line : Line)
    (station : Station) : findNTramsForStation fetch line station 3 ≠ [] :=
  findNTramsIncrement_ne_nil _ _ _ _ _
    (gatherRawWaits_ne_nil fetch line station.index) (by norm_num)

lemma findNTramsForStationF_ne_nil (fetch : Station → Option Int) (line : Line)
    (station : Station) : findNTramsForStationF fetch line station 3 ≠ [] :=
  findNTramsIncrement_ne_nil _ _ _ _ _
    (gatherRawWaits_ne_nil fetch line station.index) (by norm_num)

lemma findNTramsIncrement_dest_fields (raw_list : List (Option Int)) (cidx : Nat)
    (walk : Int) (avg : Rat) (n : Nat) :
    ∀ t ∈ findNTramsIncrement raw_list cidx walk avg n,
      t.total_travel_time = none ∧ t.final_walking_time = none ∧ t.total_time = none := by
  intro t ht
  match raw_list with
  | [] => simp [findNTramsIncrement] at ht
  | r0 :: rrest =>
    simp only [findNTramsIncrement] at ht
    obtain ⟨p, _, rfl⟩ := List.mem_map.mp (List.mem_of_mem_take ht)
    exact ⟨rfl, rfl, rfl⟩

lemma planTripDest_length (fetch : Station → Option Int) :
    ∀ lines : List Line,
      (planTripDest fetch lines).length
        = (lines.filter fun l =>
            (findActiveStation l).isSome && (findDestinationStation l).isSome).length := by
  intro lines
  induction lines with
  | nil => rfl
  | cons l ls ih =>
    simp only [planTripDest, List.flatMap_cons, List.filter_cons] at *
    rw [List.length_append, ih]
    cases hA : findActiveStation l with
    | none => simp [hA]
    | some st =>
      simp only []
      rw [if_neg (findNTramsForStation_ne_nil fetch l st)]
      cases hD : findDestinationStation l with
      | none => simp [hA, hD]
      | some e => simp [hA, hD, Nat.add_comm]

lemma planTripF_length (fetch : Station → Option Int) :
    ∀ lines : List Line,
      (planTripF fetch lines).length
        = (lines.filter fun l => (findActiveStation l).isSome).length := by
  intro lines
  induction lines with
  | nil => rfl
  | cons l ls ih =>
    simp only [planTripF, List.flatMap_cons, List.filter_cons] at *
    rw [List.length_append, ih]
    cases hA : findActiveStation l with
    | none => simp [hA]
    | some st =>
      simp only []
      rw [if_neg (findNTramsForStationF_ne_nil fetch l st)]
      simp [hA, Nat.add_comm]

lemma planTripDest_fields (fetch : Station → Option Int) :
    ∀ lines : List Line, ∀ e ∈ planTripDest fetch lines, ∀ t ∈ e.2,
      t.total_travel_time.isSome ∧ t.final_walking_time.isSome ∧ t.total_time.isSome := by
  intro lines
  induction lines with
  | nil => intro e he; simp [planTripDest] at he
  | cons l ls ih =>
    intro e he t ht
    simp only [planTripDest, List.flatMap_cons] at he
    rcases List.mem_append.mp he with he | he
    · cases hA : findActiveStation l with
      | none => rw [hA] at he; simp at he
      | some st =>
        rw [hA] at he
        simp only [] at he
        rw [if_neg (findNTramsForStation_ne_nil fetch l st)] at he
        cases hD : findDestinationStation l with
        | none => rw [hD] at he; simp at he
        | some ed =>
          rw [hD] at he
          simp only [List.mem_singleton] at he
          subst he
          simp only [] at ht
          obtain ⟨t0, _, rfl⟩ := List.mem_map.mp ht
          exact ⟨rfl, rfl, rfl⟩
    · exact ih e he t ht

lemma planTripF_fields (fetch : Station → Option Int) :
    ∀ lines : List Line, ∀ e ∈ planTripF fetch lines, ∀ t ∈ e.2,
      t.total_travel_time = none ∧ t.final_walking_time = none ∧ t.total_time = none := by
  intro lines
  induction lines with
  | nil => intro e he; simp [planTripF] at he
  | cons l ls ih =>
    intro e he t ht
    simp only [planTripF, List.flatMap_cons] at he
    rcases List.mem_append.mp he with he | he
    · cases hA : findActiveStation l with
      | none => rw [hA] at he; simp at he
      | some st =>
        rw [hA] at he
        simp only [] at he
        rw [if_neg (findNTramsForStationF_ne_nil fetch l st)] at he
        simp only [List.mem_singleton] at he
        subst he
        exact findNTramsIncrement_dest_fields _ _ _ _ _ t ht
    · exact ih e he t ht

lemma planTripF_lineNoDest :
    planTripF (fun _ => some 5) [lineNoDest] = [("A (15, Direction 0)", [wTramF])] := by
  simp only [planTripF, List.flatMap_cons, List.flatMap_nil, List.append_nil]
  rw [show findActiveStation lineNoDest = some
      { name := "A", code := "a", walking_time := 4, index := 0, active := true }
    from by decide]
  simp only []
  rw [if_neg (findNTramsForStationF_ne_nil _ _ _)]
  have hk : planKey
      { name := "A", code := "a", walking_time := 4, index := 0, active := true }
      lineNoDest = "A (15, Direction 0)" := by decide
  have hraw : gatherRawWaits (fun _ => some 5) lineNoDest
      (Station.index { name := "A", code := "a", walking_time := 4, index := 0, active := true })
      = [some 5] := by decide
  have ht : findNTramsForStationF (fun _ => some 5) lineNoDest
      { name := "A", code := "a", walking_time := 4, index := 0, active := true } 3
      = [wTramF] := by
    rw [findNTramsForStationF, hraw]
    have havg : computeAverageTravelTime [some 5] = 2 := by decide
    rw [havg]
    simp only [findNTramsIncrement, findVehicles, toNumeric, computeArrival, wTramF]
    norm_num [TramInfo.mk.injEq]
  rw [hk, ht]

/-! ## C1: plan entries -/

/-- C1 (counterexample): a catalog with a single line that has a boarding
stop marked but no destination stop: the destination variant's `plan_trip`
returns an empty mapping — the line does not "still appear with the
destination fields omitted", it is dropped entirely. -/
theorem plan_entries_cex :
    findActiveStation lineNoDest = some
      { name := "A", code := "a", walking_time := 4, index := 0, active := true }
    ∧ findDestinationStation lineNoDest = none
    ∧ planTripDest (fun _ => some 5) [lineNoDest] = [] := by
  refine ⟨by decide, by decide, ?_⟩
  simp only [planTripDest, List.flatMap_cons, List.flatMap_nil]
  rw [show findActiveStation lineNoDest = some
      { name := "A", code := "a", walking_time := 4, index := 0, active := true }
    from by decide]
  simp only []
  rw [if_neg (findNTramsForStation_ne_nil _ _ _)]
  rw [show findDestinationStation lineNoDest = none from by decide]
  rfl

/-- C1 (amended): the destination variant's `plan_trip` returns exactly one
entry per line that has both a boarding stop and a destination stop marked
(lines with a boarding stop but no destination are omitted entirely), and
each of its candidates carries the three destination fields; the
no-destination variant (`final.py`) returns exactly one entry per line with a
boarding stop marked, and its candidates omit all three destination fields. -/
theorem plan_entries_amended (fetch : Station → Option Int) (lines : List Line) :
    (planTripDest fetch lines).length
      = (lines.filter fun l =>
          (findActiveStation l).isSome && (findDestinationStation l).isSome).length
    ∧ (planTripF fetch lines).length
      = (lines.filter fun l => (findActiveStation l).isSome).length
    ∧ (∀ e ∈ planTripDest fetch lines, ∀ t ∈ e.2,
        t.total_travel_time.isSome ∧ t.final_walking_time.isSome ∧ t.total_time.isSome)
    ∧ (∀ e ∈ planTripF fetch lines, ∀ t ∈ e.2,
        t.total_travel_time = none ∧ t.final_walking_time = none ∧ t.total_time = none) :=
  ⟨planTripDest_length fetch lines, planTripF_length fetch lines,
   planTripDest_fields fetch lines, planTripF_fields fetch lines⟩

/-- C1 (witness): the amended entry theorem applied to the one-line catalog
`[lineNoDest]` with constant reading 5: the `final.py` plan contains the
line's entry and its candidate omits all three destination fields. -/
theorem plan_entries_amended_witness :
    (("A (15, Direction 0)", [wTramF]) ∈ planTripF (fun _ => some 5) [lineNoDest])
    ∧ wTramF ∈ [wTramF]
    ∧ (wTramF.total_travel_time = none ∧ wTramF.final_walking_time = none
        ∧ wTramF.total_time = none) :=
  ⟨by rw [planTripF_lineNoDest]; exact List.mem_singleton.mpr rfl,
   List.mem_singleton.mpr rfl,
   (plan_entries_amended (fun _ => some 5) [lineNoDest]).2.2.2
     ("A (15, Direction 0)", [wTramF])
     (by rw [planTripF_lineNoDest]; exact List.mem_singleton.mpr rfl)
     wTramF (List.mem_singleton.mpr rfl)⟩

/-! ## C2: plan caching -/

/-- C2 (counterexample): the planner caches its first plan in
`self._cached_plan` and never invalidates it: after planning the one-line
catalog, a second `plan_trip` call — issued after the catalog's lines have
been replaced by an empty catalog — still returns the first plan (one entry)
although recomputing on the current catalog would give an empty plan, so a
fresh call does not re-poll or recompute. -/
theorem plan_cache_cex :
    (planTripStateful (fun _ => some 7)
        { (planTripStateful (fun _ => some 5)
            { lines := [lineBoth], cachedPlan := none }).2 with lines := [] }).1
      = (planTripStateful (fun _ => some 5) { lines := [lineBoth], cachedPlan := none }).1
    ∧ ((planTripStateful (fun _ => some 5)
        { lines := [lineBoth], cachedPlan := none }).1).length = 1
    ∧ (planTripDest (fun _ => some 7) ([] : List Line)).length = 0 := by
  refine ⟨rfl, ?_, rfl⟩
  show (planTripDest (fun _ => some 5) [lineBoth]).length = 1
  simp only [planTripDest, List.flatMap_cons, List.flatMap_nil]
  rw [show findActiveStation lineBoth = some
      { name := "A", code := "a", walking_time := 4, index := 0, active := true }
    from by decide]
  simp only []
  rw [if_neg (findNTramsForStation_ne_nil _ _ _)]
  rw [show findDestinationStation lineBoth = some
      { name := "B", code := "b", walking_time := 0, index := 1, active := false,
        is_destination := true, destination_walking_time := 3 }
    from by decide]
  rfl

/-- C2 (amended): `plan_trip` results are cached on the planner indefinitely:
after any call, the planner state holds the returned plan, and every later
call — with any signal source and any replacement of the catalog's lines
(i.e. after markings change) — returns that same stored plan and leaves the
state unchanged, without recomputing. -/
theorem plan_cache_amended (fetch : Station → Option Int) (s : PlannerState) :
    ((planTripStateful fetch s).2).cachedPlan = some (planTripStateful fetch s).1
    ∧ ∀ (fetch2 : Station → Option Int) (newLines : List Line),
        planTripStateful fetch2 { (planTripStateful fetch s).2 with lines := newLines }
          = ((planTripStateful fetch s).1,
             { (planTripStateful fetch s).2 with lines := newLines }) := by
  cases hc : s.cachedPlan <;> simp [planTripStateful, hc]

/-! ## C9: inverted destination pair -/

/-- C9: when the configured destination stop's index is smaller than the
boarding stop's index, `plan_trip` does not reject or skip the line: it still
produces exactly one entry with a non-empty candidate list, and — because
`_compute_total_travel_time` returns 0 for the inverted pair — every
candidate has `total_travel_time = 0` and
`total_time = arrival_at_boarding + destination_walk_time`. -/
theorem inverted_dest (fetch : Station → Option Int) (line : Line)
    (start_station end_station : Station)
    (hA : findActiveStation line = some start_station)
    (hD : findDestinationStation line = some end_station)
    (hlt : end_station.index < start_station.index) :
    (planTripDest fetch [line]).length = 1
    ∧ ∀ e ∈ planTripDest fetch [line],
        e.1 = destKey start_station end_station line
        ∧ e.2 ≠ []
        ∧ ∀ t ∈ e.2,
            t.total_travel_time = some 0
            ∧ t.total_time = some (t.arrival + (end_station.destination_walking_time : Rat)) := by
  have hctt : computeTotalTravelTime
      (computeLineTravelTime (gatherRawWaits fetch line start_station.index))
      start_station end_station = 0 := by
    rw [computeTotalTravelTime, if_pos hlt]
  have hplan : planTripDest fetch [line]
      = [(destKey start_station end_station line,
          (findNTramsForStation fetch line start_station 3).map fun t =>
            { t with
              total_travel_time := some (computeTotalTravelTime
                (computeLineTravelTime (gatherRawWaits fetch line start_station.index))
                start_station end_station)
              final_walking_time := some end_station.destination_walking_time
              total_time := some (t.arrival + computeTotalTravelTime
                (computeLineTravelTime (gatherRawWaits fetch line start_station.index))
                start_station end_station
                + (end_station.destination_walking_time : Rat)) })] := by
    simp only [planTripDest, List.flatMap_cons, List.flatMap_nil, List.append_nil]
    rw [hA]
    simp only []
    rw [if_neg (findNTramsForStation_ne_nil _ _ _), hD]
  refine ⟨by rw [hplan]; rfl, ?_⟩
  intro e he
  rw [hplan, List.mem_singleton] at he
  subst he
  refine ⟨rfl, ?_, ?_⟩
  · simp only [ne_eq, List.map_eq_nil_iff]
    exact findNTramsForStation_ne_nil fetch line start_station
  · intro t ht
    simp only [List.mem_map] at ht
    obtain ⟨t0, _, rfl⟩ := ht
    refine ⟨by rw [hctt], ?_⟩
    show some (t0.arrival + _ + _) = some (t0.arrival + _)
    rw [hctt, add_zero]

/-- C9 (witness): the inverted-pair theorem at the concrete line whose
destination (index 0) precedes its boarding stop (index 1), with every
reading equal to 4. -/
theorem inverted_dest_witness :
    ((planTripDest (fun _ => some 4) [lineInverted]).length = 1
      ∧ ∀ e ∈ planTripDest (fun _ => some 4) [lineInverted],
          e.1 = destKey stInvStart stInvDest lineInverted
          ∧ e.2 ≠ []
          ∧ ∀ t ∈ e.2,
              t.total_travel_time = some 0
              ∧ t.total_time
                  = some (t.arrival + (stInvDest.destination_walking_time : Rat))) :=
  inverted_dest (fun _ => some 4) lineInverted stInvStart stInvDest
    (by decide) (by decide) (by decide)

/-! ## C10: candidate marking is monotone and frame-respecting -/

lemma markStart_getElem (t : String) (w : Int) :
    ∀ (l : List Station) (j : Nat),
      (markStart t w l)[j]? = l[j]?
      ∨ ∃ st, l[j]? = some st ∧ st.code = t
          ∧ (markStart t w l)[j]? = some { st with active := true, walking_time := w } := by
  intro l
  induction l with
  | nil => intro j; left; rfl
  | cons st rest ih =>
    intro j
    rw [markStart]
    by_cases hc : st.code = t
    · rw [if_pos hc]
      cases j with
      | zero => right; exact ⟨st, by simp, hc, by simp⟩
      | succ m => left; simp
    · rw [if_neg hc]
      cases j with
      | zero => left; simp
      | succ m =>
        rcases ih m with h | ⟨st0, h1, h2, h3⟩
        · left; simpa using h
        · right; exact ⟨st0, by simpa using h1, h2, by simpa using h3⟩

lemma markEnd_getElem (t : String) (w : Int) :
    ∀ (l : List Station) (j : Nat),
      (markEnd t w l)[j]? = l[j]?
      ∨ ∃ st, l[j]? = some st ∧ st.code = t
          ∧ (markEnd t w l)[j]?
              = some { st with is_destination := true, destination_walking_time := w } := by
  intro l
  induction l with
  | nil => intro j; left; rfl
  | cons st rest ih =>
    intro j
    rw [markEnd]
    by_cases hc : st.code = t
    · rw [if_pos hc]
      cases j with
      | zero => right; exact ⟨st, by simp, hc, by simp⟩
      | succ m => left; simp
    · rw [if_neg hc]
      cases j with
      | zero => left; simp
      | succ m =>
        rcases ih m with h | ⟨st0, h1, h2, h3⟩
        · left; simpa using h
        · right; exact ⟨st0, by simpa using h1, h2, by simpa using h3⟩

lemma markStart_length (t : String) (w : Int) :
    ∀ l : List Station, (markStart t w l).length = l.length := by
  intro l
  induction l with
  | nil => rfl
  | cons st rest ih =>
    rw [markStart]
    by_cases hc : st.code = t
    · rw [if_pos hc]; simp
    · rw [if_neg hc]; simp [ih]

lemma markEnd_length (t : String) (w : Int) :
    ∀ l : List Station, (markEnd t w l).length = l.length := by
  intro l
  induction l with
  | nil => rfl
  | cons st rest ih =>
    rw [markEnd]
    by_cases hc : st.code = t
    · rw [if_pos hc]; simp
    · rw [if_neg hc]; simp [ih]

lemma marksPreserve_refl (sc ec : Option Candidate) (l : List Station) :
    MarksPreserve sc ec l l :=
  ⟨rfl, fun _ st h => ⟨st, h, rfl, rfl, rfl, fun a => a, fun a => a, fun _ _ => rfl⟩⟩

lemma markStart_marksPreserve (c : Candidate) (ec : Option Candidate)
    (l : List Station) :
    MarksPreserve (some c) ec l (markStart c.target_station_code c.walking_time l) := by
  refine ⟨markStart_length _ _ l, ?_⟩
  intro j st hj
  rcases markStart_getElem c.target_station_code c.walking_time l j with h | ⟨st0, h1, h2, h3⟩
  · exact ⟨st, by rw [h, hj], rfl, rfl, rfl, fun a => a, fun a => a, fun _ _ => rfl⟩
  · rw [hj] at h1
    obtain rfl : st = st0 := by injection h1
    refine ⟨{ st with active := true, walking_time := c.walking_time }, h3,
      rfl, rfl, rfl, fun _ => rfl, fun a => a, ?_⟩
    intro hs _
    exact absurd h2 (hs c rfl)

lemma markEnd_marksPreserve (c : Candidate) (sc : Option Candidate)
    (l : List Station) :
    MarksPreserve sc (some c) l (markEnd c.target_station_code c.walking_time l) := by
  refine ⟨markEnd_length _ _ l, ?_⟩
  intro j st hj
  rcases markEnd_getElem c.target_station_code c.walking_time l j with h | ⟨st0, h1, h2, h3⟩
  · exact ⟨st, by rw [h, hj], rfl, rfl, rfl, fun a => a, fun a => a, fun _ _ => rfl⟩
  · rw [hj] at h1
    obtain rfl : st = st0 := by injection h1
    refine ⟨{ st with is_destination := true, destination_walking_time := c.walking_time },
      h3, rfl, rfl, rfl, fun a => a, fun _ => rfl, ?_⟩
    intro _ he
    exact absurd h2 (he c rfl)

lemma marksPreserve_trans (sc ec : Option Candidate) (l m l' : List Station)
    (h1 : MarksPreserve sc ec l m) (h2 : MarksPreserve sc ec m l') :
    MarksPreserve sc ec l l' := by
  refine ⟨h2.1.trans h1.1, ?_⟩
  intro j st hj
  obtain ⟨st1, hst1, hn1, hc1, hi1, ha1, hd1, hf1⟩ := h1.2 j st hj
  obtain ⟨st2, hst2, hn2, hc2, hi2, ha2, hd2, hf2⟩ := h2.2 j st1 hst1
  refine ⟨st2, hst2, hn2.trans hn1, hc2.trans hc1, hi2.trans hi1,
    fun a => ha2 (ha1 a), fun a => hd2 (hd1 a), ?_⟩
  intro hs he
  have e1 : st1 = st := hf1 hs he
  subst e1
  exact hf2 hs he

lemma updateLineStart_props (sc ec : Option Candidate) (line : Line) :
    (updateLineStart sc line).name = line.name
    ∧ (updateLineStart sc line).line_code = line.line_code
    ∧ (updateLineStart sc line).direction = line.direction
    ∧ MarksPreserve sc ec line.stations (updateLineStart sc line).stations := by
  rcases sc with _ | c1
  · exact ⟨rfl, rfl, rfl, marksPreserve_refl _ _ _⟩
  · rw [updateLineStart]
    by_cases h1 : c1.direction = line.direction
    · rw [if_pos h1]
      exact ⟨rfl, rfl, rfl, markStart_marksPreserve c1 ec line.stations⟩
    · rw [if_neg h1]
      exact ⟨rfl, rfl, rfl, marksPreserve_refl _ _ _⟩

lemma updateLineEnd_props (ec sc : Option Candidate) (line1 : Line) :
    (updateLineEnd ec line1).name = line1.name
    ∧ (updateLineEnd ec line1).line_code = line1.line_code
    ∧ (updateLineEnd ec line1).direction = line1.direction
    ∧ MarksPreserve sc ec line1.stations (updateLineEnd ec line1).stations := by
  rcases ec with _ | c2
  · exact ⟨rfl, rfl, rfl, marksPreserve_refl _ _ _⟩
  · rw [updateLineEnd]
    by_cases h2 : c2.direction = line1.direction
    · rw [if_pos h2]
      exact ⟨rfl, rfl, rfl, markEnd_marksPreserve c2 sc line1.stations⟩
    · rw [if_neg h2]
      exact ⟨rfl, rfl, rfl, marksPreserve_refl _ _ _⟩

lemma updateLine_marksPreserve (sc ec : Option Candidate) (line : Line) :
    (updateLine sc ec line).name = line.name
    ∧ (updateLine sc ec line).line_code = line.line_code
    ∧ (updateLine sc ec line).direction = line.direction
    ∧ MarksPreserve sc ec line.stations (updateLine sc ec line).stations := by
  obtain ⟨hn1, hc1, hd1, hmp1⟩ := updateLineStart_props sc ec line
  obtain ⟨hn2, hc2, hd2, hmp2⟩ := updateLineEnd_props ec sc (updateLineStart sc line)
  exact ⟨hn2.trans hn1, hc2.trans hc1, hd2.trans hd1,
    marksPreserve_trans _ _ _ _ _ hmp1 hmp2⟩

lemma update_lines_props (lines : List Line) (scs ecs : String → Option Candidate) :
    (update_lines_with_candidates lines scs ecs).length = lines.length
    ∧ ∀ (li : Nat) (line : Line), lines[li]? = some line →
        ∃ line', (update_lines_with_candidates lines scs ecs)[li]? = some line'
          ∧ line'.name = line.name ∧ line'.line_code = line.line_code
          ∧ line'.direction = line.direction
          ∧ MarksPreserve (scs line.line_code) (ecs line.line_code)
              line.stations line'.stations := by
  refine ⟨List.length_map _ _, ?_⟩
  intro li line hli
  refine ⟨updateLine (scs line.line_code) (ecs line.line_code) line, ?_, ?_⟩
  · rw [update_lines_with_candidates, List.getElem?_map, hli]
    rfl
  · exact updateLine_marksPreserve _ _ line

/-- C10: `update_lines_with_candidates` only sets markings, never clears
them: the catalog keeps its length, every line keeps its identity fields, and
on each line's stations the `MarksPreserve` relation holds — active and
destination markings survive, and any station whose code matches neither the
start nor the end candidate's target code is unchanged; consequently, after a
second call with further candidate mappings, every station marked active by
the first call is still marked active (so successive calls accumulate marked
stops). -/
theorem update_marks (lines : List Line) (scs ecs : String → Option Candidate) :
    (update_lines_with_candidates lines scs ecs).length = lines.length
    ∧ (∀ (li : Nat) (line : Line), lines[li]? = some line →
        ∃ line', (update_lines_with_candidates lines scs ecs)[li]? = some line'
          ∧ line'.name = line.name ∧ line'.line_code = line.line_code
          ∧ line'.direction = line.direction
          ∧ MarksPreserve (scs line.line_code) (ecs line.line_code)
              line.stations line'.stations)
    ∧ ∀ (scs2 ecs2 : String → Option Candidate) (li j : Nat) (line : Line) (st : Station),
        (update_lines_with_candidates lines scs ecs)[li]? = some line →
        line.stations[j]? = some st → st.active = true →
        ∃ line' st',
          (update_lines_with_candidates
            (update_lines_with_candidates lines scs ecs) scs2 ecs2)[li]? = some line'
          ∧ line'.stations[j]? = some st'
          ∧ st'.active = true
          ∧ (st.is_destination = true → st'.is_destination = true) := by
  refine ⟨(update_lines_props lines scs ecs).1, (update_lines_props lines scs ecs).2, ?_⟩
  intro scs2 ecs2 li j line st h1 h2 hact
  obtain ⟨line', hsome, _, _, _, hmp⟩ :=
    (update_lines_props (update_lines_with_candidates lines scs ecs) scs2 ecs2).2 li line h1
  obtain ⟨st', hst', _, _, _, ha, hd, _⟩ := hmp.2 j st h2
  exact ⟨line', st', hsome, hst', ha hact, hd⟩

/-- C10 (witness): the marking theorem applied to a two-stop line "W" with a
start candidate targeting stop "p" and no end candidates. -/
theorem update_marks_witness :
    ([lineW][0]? = some lineW)
    ∧ ∃ line', (update_lines_with_candidates [lineW] scsW ecsW)[0]? = some line'
        ∧ line'.name = lineW.name ∧ line'.line_code = lineW.line_code
        ∧ line'.direction = lineW.direction
        ∧ MarksPreserve (scsW lineW.line_code) (ecsW lineW.line_code)
            lineW.stations line'.stations :=
  ⟨by decide, (update_marks [lineW] scsW ecsW).2.1 0 lineW (by decide)⟩

end Atm
